import Mathlib

/-!
Shallow embedding of the caching core of the genomcp-workers repository:
the ephemeral KV cache wrapper (`src/cache/kv-store.ts`, class `KVCache`),
the durable variant registry (`src/cache/variant-registry.ts`, class
`VariantRegistry`), and the batch/fan-out pattern used by the API handlers
(`src/api/diagnosis.ts`, `src/utils/batch-fetch.ts`).

Timestamps (`Date.now()`) are modelled as `Nat`; JSON payloads as the
inductive `JVal` (with `JSON.stringify`/`JSON.parse` round-trip being the
identity on such values); the JavaScript conflation of `null`-the-value
with `null`-the-absence is kept: a KV read returns `JVal.jnull` both when
the key is absent or expired and when the stored JSON value is `null`.
Asynchronous storage writes that may fail are modelled by an explicit
`putOk : Bool` parameter; the single-threaded worker model of the spec
lets each operation be a pure state transformer.
-/

/-- A JSON-like value, the model of the opaque payloads the cache stores.
`jnull` doubles as the JavaScript `null` that `kv.get` returns on a miss. -/
inductive JVal where
  | jnull
  | jbool (b : Bool)
  | jnum (n : Int)
  | jstr (s : String)
  deriving DecidableEq, Repr

/-- Association-list lookup: the first binding of the key, as a JS `Map.get`
or KV read sees it. -/
def alookup {α : Type} : List (String × α) → String → Option α
  | [], _ => none
  | (k, v) :: rest, key => if k = key then some v else alookup rest key

/-- Association-list write: replace the first binding of the key in place,
or append a new binding — `Map.set` / `kv.put` semantics. -/
def aput {α : Type} : List (String × α) → String → α → List (String × α)
  | [], key, v => [(key, v)]
  | (k, w) :: rest, key, v =>
      if k = key then (key, v) :: rest else (k, w) :: aput rest key v

/-- Association-list delete: remove the first binding of the key —
`Map.delete` / `kv.delete` semantics. -/
def adel {α : Type} : List (String × α) → String → List (String × α)
  | [], _ => []
  | (k, w) :: rest, key => if k = key then rest else (k, w) :: adel rest key

/-- Well-formedness of a map representation: keys are pairwise distinct,
as they are in a JS `Map` or a KV namespace. -/
def keysNodup {α : Type} (m : List (String × α)) : Prop :=
  (m.map Prod.fst).Nodup

instance {α : Type} (m : List (String × α)) : Decidable (keysNodup m) := by
  unfold keysNodup; infer_instance

/-! ## Ephemeral KV cache (`src/cache/kv-store.ts`) -/

/-- One record of the KV substrate: the stored (JSON-serialized) value and
the absolute expiry installed from `expirationTtl`, if any.  The optional
`metadata` of `CacheOptions` never influences reads and is not modelled. -/
structure KVEntry where
  value : JVal
  expiresAt : Option Nat
  deriving DecidableEq, Repr

/-- The KV namespace substrate: a key-to-entry map. -/
abbrev KVStore : Type := List (String × KVEntry)

/-- `kv.get(key, "json")` at time `now`: the JS return value.  Absent and
expired keys read as `null` (`jnull`), and a stored JSON `null` also reads
as `jnull` — JavaScript cannot tell the two apart. -/
def kvGetJson (st : KVStore) (now : Nat) (key : String) : JVal :=
  match alookup st key with
  | none => JVal.jnull
  | some e =>
      match e.expiresAt with
      | none => e.value
      | some t => if now < t then e.value else JVal.jnull

/-- The `KVCache` wrapper: the underlying KV namespace plus the namespace
prefix (`ns` stands for the source's `namespace` field, a reserved word
here). -/
structure KVCache where
  kv : KVStore
  ns : String
  deriving DecidableEq

/-- `getKey`: logical key = `namespace + ":" + rawKey`. -/
def KVCache.getKey (c : KVCache) (key : String) : String :=
  c.ns ++ ":" ++ key

/-- `KVCache.get`: read the namespaced key as JSON. -/
def KVCache.get (c : KVCache) (now : Nat) (key : String) : JVal :=
  kvGetJson c.kv now (c.getKey key)

/-- `KVCache.set`: `if (options.ttl)` is JS truthiness, so a ttl of `0`
(or an omitted ttl) installs **no** expiry; a nonzero ttl installs the
absolute expiry `now + ttl`. -/
def KVCache.set (c : KVCache) (now : Nat) (key : String) (value : JVal)
    (ttl : Option Nat) : KVCache :=
  let expiresAt : Option Nat :=
    match ttl with
    | some t => if t ≠ 0 then some (now + t) else none
    | none => none
  { c with kv := aput c.kv (c.getKey key) ⟨value, expiresAt⟩ }

/-- `KVCache.delete`. -/
def KVCache.del (c : KVCache) (key : String) : KVCache :=
  { c with kv := adel c.kv (c.getKey key) }

/-- `KVCache.has`: defined in the source as `get(key) !== null`. -/
def KVCache.hasKey (c : KVCache) (now : Nat) (key : String) : Bool :=
  c.get now key ≠ JVal.jnull

deriving instance DecidableEq for Except

/-- Result of one `getOrSet` call: the JS return (or the propagated
exception), the cache state afterwards, and how many times `computeFn`
was invoked during the call. -/
structure GosResult where
  result : Except String JVal
  cache : KVCache
  fnCalls : Nat
  deriving DecidableEq

/-- `KVCache.getOrSet`: check the cache; on a hit (non-null read) return it
without invoking `computeFn`; on a miss invoke `computeFn` once — `fn` is
the outcome of that single invocation — and on success store the result
with the given ttl before returning it.  A `computeFn` failure propagates
and nothing is stored. -/
def KVCache.getOrSet (c : KVCache) (now : Nat) (key : String)
    (fn : Except String JVal) (ttl : Option Nat) : GosResult :=
  let cached := c.get now key
  if cached ≠ JVal.jnull then
    ⟨Except.ok cached, c, 0⟩
  else
    match fn with
    | Except.error e => ⟨Except.error e, c, 1⟩
    | Except.ok v => ⟨Except.ok v, c.set now key v ttl, 1⟩

/-! ## Durable variant registry (`src/cache/variant-registry.ts`) -/

/-- The `VariantEntry` interface of the source, with `Date.now()`
timestamps as naturals and the opaque `interpretation` payload as `JVal`. -/
structure VariantEntry where
  hgvs : String
  gene : String
  interpretation : JVal
  sources : List String
  created_at : Nat
  updated_at : Nat
  access_count : Nat
  deriving DecidableEq, Repr

/-- A key-to-record map, used both for the in-memory `Map` and for the
Durable Object persistent storage. -/
abbrev RegMap : Type := List (String × VariantEntry)

/-- State of one `VariantRegistry` shard: the in-memory index
(`this.variants`) and the persistent storage (`this.state.storage`). -/
structure RegState where
  variants : RegMap
  storage : RegMap
  deriving DecidableEq

/-- Failure modes of a registry operation: the 404 miss, or a persistent
storage write that throws. -/
inductive RegError where
  | notFound
  | storageError
  deriving DecidableEq, Repr

/-- JavaScript `x || d` on an optional number: `0` is falsy, so a present
`0` still yields the default. -/
def jsOr (x : Option Nat) (d : Nat) : Nat :=
  match x with
  | some n => if n ≠ 0 then n else d
  | none => d

/-- `getVariant(hgvs)` at time `now`.  On a hit the in-memory record is
bumped (`access_count += 1`, `updated_at = now`) and written to the index
*before* the persistent `storage.put` is awaited; `putOk` says whether
that put succeeds.  On a miss a 404 is returned with no state change. -/
def getVariant (s : RegState) (hgvs : String) (now : Nat) (putOk : Bool) :
    Except RegError VariantEntry × RegState :=
  match alookup s.variants hgvs with
  | none => (Except.error RegError.notFound, s)
  | some v =>
      let v' : VariantEntry :=
        { v with access_count := v.access_count + 1, updated_at := now }
      let mem := aput s.variants hgvs v'
      if putOk then
        (Except.ok v', { variants := mem, storage := aput s.storage hgvs v' })
      else
        (Except.error RegError.storageError, { variants := mem, storage := s.storage })

/-- `storeVariant(data)` at time `now`: upsert that keeps
`existing?.created_at || Date.now()` and `existing?.access_count || 0`
(JS `||`, so a stored `0` counts as absent), sets `updated_at = now`,
writes the in-memory index, then awaits the persistent put. -/
def storeVariant (s : RegState) (data : VariantEntry) (now : Nat) (putOk : Bool) :
    Except RegError VariantEntry × RegState :=
  let existing := alookup s.variants data.hgvs
  let entry : VariantEntry :=
    { data with
      created_at := jsOr (existing.map VariantEntry.created_at) now,
      updated_at := now,
      access_count := jsOr (existing.map VariantEntry.access_count) 0 }
  let mem := aput s.variants data.hgvs entry
  if putOk then
    (Except.ok entry, { variants := mem, storage := aput s.storage data.hgvs entry })
  else
    (Except.error RegError.storageError, { variants := mem, storage := s.storage })

/-- `deleteVariant(hgvs)`: remove from the in-memory index, then await the
persistent delete (`delOk` says whether it succeeds); always replies
success when the storage call does, present or not. -/
def deleteVariant (s : RegState) (hgvs : String) (delOk : Bool) :
    Except RegError Unit × RegState :=
  let mem := adel s.variants hgvs
  if delOk then
    (Except.ok (), { variants := mem, storage := adel s.storage hgvs })
  else
    (Except.error RegError.storageError, { variants := mem, storage := s.storage })

/-- One line of the `getStats()` response:
`(hgvs, gene, access_count, created_at, updated_at)`. -/
abbrev StatLine : Type := String × String × Nat × Nat × Nat

/-- `getStats()`: `total_variants = this.variants.size` plus a summary per
indexed entry (timestamps kept numeric rather than ISO-formatted). -/
def getStats (s : RegState) : Nat × List StatLine :=
  (s.variants.length,
   s.variants.map (fun p =>
     (p.2.hgvs, p.2.gene, p.2.access_count, p.2.created_at, p.2.updated_at)))

/-- The hydration step at the top of `fetch`: guarded by
`this.variants.size === 0`, it copies every persisted record into the
in-memory index.  Returns the new state and whether hydration ran. -/
def hydrate (s : RegState) : RegState × Bool :=
  if s.variants.isEmpty then ({ s with variants := s.storage }, true) else (s, false)

/-- The four routed requests of `VariantRegistry.fetch`. -/
inductive RegOp where
  | getOp (hgvs : String)
  | storeOp (data : VariantEntry)
  | deleteOp (hgvs : String)
  | statsOp
  deriving DecidableEq

/-- A `fetch` response, reduced to its JSON content. -/
inductive RegResponse where
  | entry (v : VariantEntry)
  | deleted
  | stats (total : Nat) (lines : List StatLine)
  | failure (e : RegError)
  deriving DecidableEq

/-- One full `fetch` request on a shard: hydrate-if-empty, then dispatch.
The final component reports whether the hydration load ran. -/
def serveRequest (s : RegState) (op : RegOp) (now : Nat) (putOk : Bool) :
    RegResponse × RegState × Bool :=
  let (s₁, ran) := hydrate s
  match op with
  | RegOp.getOp h =>
      match getVariant s₁ h now putOk with
      | (Except.ok v, s₂) => (RegResponse.entry v, s₂, ran)
      | (Except.error e, s₂) => (RegResponse.failure e, s₂, ran)
  | RegOp.storeOp d =>
      match storeVariant s₁ d now putOk with
      | (Except.ok v, s₂) => (RegResponse.entry v, s₂, ran)
      | (Except.error e, s₂) => (RegResponse.failure e, s₂, ran)
  | RegOp.deleteOp h =>
      match deleteVariant s₁ h putOk with
      | (Except.ok _, s₂) => (RegResponse.deleted, s₂, ran)
      | (Except.error e, s₂) => (RegResponse.failure e, s₂, ran)
  | RegOp.statsOp =>
      let (t, ls) := getStats s₁
      (RegResponse.stats t ls, s₁, ran)

/-- A sequence of successful `getVariant` reads of one `hgvs`, at the
given call times: the state after the sequence. -/
def getN (s : RegState) (hgvs : String) (times : List Nat) : RegState :=
  match times with
  | [] => s
  | t :: ts => getN (getVariant s hgvs t true).2 hgvs ts

/-! ## Batch fan-out (`src/api/diagnosis.ts`, `src/utils/batch-fetch.ts`) -/

/-- `Promise.all` over already-settled outcomes (the single-threaded worker
model runs the sub-queries in order): the first rejection rejects the
aggregate, otherwise the list of fulfilled values is returned. -/
def promiseAll {ε α : Type} : List (Except ε α) → Except ε (List α)
  | [] => Except.ok []
  | Except.ok a :: rest => (promiseAll rest).map (fun l => a :: l)
  | Except.error e :: _ => Except.error e

/-- The per-item work of the diagnosis Step-2 batch: one `getOrSet` per
variant against the shared variant cache, threading the cache state.
Each item is `(rawKey, computeFn outcome)`; the settled outcomes are
returned in order. -/
def runBatch (c : KVCache) (now : Nat) (ttl : Option Nat) :
    List (String × Except String JVal) → List (Except String JVal) × KVCache
  | [] => ([], c)
  | (k, fn) :: rest =>
      let r := c.getOrSet now k fn ttl
      let (rs, c') := runBatch r.cache now ttl rest
      (r.result :: rs, c')

/-- Step 2 of the diagnosis handler: `Promise.all(variants.map(v =>
variantCache.getOrSet(...)))` — the aggregate the handler awaits. -/
def diagnosisStep2 (c : KVCache) (now : Nat) (ttl : Option Nat)
    (items : List (String × Except String JVal)) :
    Except String (List JVal) × KVCache :=
  let (rs, c') := runBatch c now ttl items
  (promiseAll rs, c')

/-- `executeWithRetry(fn, retries, delay)`: `fn i` is the outcome of the
`i`-th invocation of the task; on failure with retries left the task is
re-invoked, and with none left the last error is thrown (the backoff
delay has no observable effect in this model). -/
def executeWithRetry (fn : Nat → Except String JVal) : Nat → Nat → Except String JVal
  | retries, i =>
      match fn i with
      | Except.ok v => Except.ok v
      | Except.error e =>
          match retries with
          | 0 => Except.error e
          | r + 1 => executeWithRetry fn r (i + 1)

/-- `batchExecute(tasks, options)`: every task runs under
`executeWithRetry`; a task that still fails rethrows inside the tracked
promise, so the awaited `Promise.all` rejects the whole batch. -/
def batchExecute (tasks : List (Nat → Except String JVal)) (retries : Nat) :
    Except String (List JVal) :=
  promiseAll (tasks.map (fun t => executeWithRetry t retries 0))

/-! ## Map lemmas -/

@[simp] theorem alookup_aput_self {α : Type} (m : List (String × α)) (k : String) (v : α) :
    alookup (aput m k v) k = some v := by
  induction m with
  | nil => simp [aput, alookup]
  | cons hd tl ih =>
      obtain ⟨k', v'⟩ := hd
      by_cases h : k' = k <;> simp [aput, alookup, h, ih]

theorem alookup_aput_ne {α : Type} (m : List (String × α)) (k k' : String) (v : α)
    (h : k' ≠ k) : alookup (aput m k v) k' = alookup m k' := by
  induction m with
  | nil => simp [aput, alookup, Ne.symm h]
  | cons hd tl ih =>
      obtain ⟨k₀, v₀⟩ := hd
      by_cases h₀ : k₀ = k
      · subst h₀; simp [aput, alookup, Ne.symm h]
      · by_cases h₁ : k₀ = k' <;> simp [aput, alookup, h, h₀, h₁, ih]

theorem alookup_eq_none_of_not_mem {α : Type} (m : List (String × α)) (k : String)
    (h : k ∉ m.map Prod.fst) : alookup m k = none := by
  induction m with
  | nil => rfl
  | cons hd tl ih =>
      obtain ⟨k₀, v₀⟩ := hd
      simp only [List.map_cons, List.mem_cons, not_or] at h
      simp [alookup, Ne.symm h.1, ih h.2]

theorem adel_of_absent {α : Type} (m : List (String × α)) (k : String)
    (h : alookup m k = none) : adel m k = m := by
  induction m with
  | nil => rfl
  | cons hd tl ih =>
      obtain ⟨k₀, v₀⟩ := hd
      by_cases h₀ : k₀ = k
      · subst h₀; simp [alookup] at h
      · simp [alookup, h₀] at h
        simp [adel, h₀, ih h]

theorem alookup_adel_self {α : Type} (m : List (String × α)) (k : String)
    (hwf : keysNodup m) : alookup (adel m k) k = none := by
  induction m with
  | nil => rfl
  | cons hd tl ih =>
      obtain ⟨k₀, v₀⟩ := hd
      simp only [keysNodup, List.map_cons, List.nodup_cons] at hwf
      by_cases h₀ : k₀ = k
      · subst h₀
        simp only [adel, if_pos rfl]
        exact alookup_eq_none_of_not_mem tl k₀ hwf.1
      · simp only [adel, if_neg h₀, alookup, if_neg h₀]
        exact ih hwf.2

theorem alookup_adel_ne {α : Type} (m : List (String × α)) (k k' : String)
    (h : k' ≠ k) : alookup (adel m k) k' = alookup m k' := by
  induction m with
  | nil => rfl
  | cons hd tl ih =>
      obtain ⟨k₀, v₀⟩ := hd
      by_cases h₀ : k₀ = k
      · subst h₀
        simp [adel, alookup, Ne.symm h]
      · by_cases h₁ : k₀ = k' <;> simp [adel, alookup, h, h₀, h₁, ih]

/-- A key that reads as `null` keeps reading as `null` at any later time:
expiry only ever turns values into misses. -/
theorem get_null_mono (c : KVCache) (now now' : Nat) (key : String)
    (h : c.get now key = JVal.jnull) (hle : now ≤ now') :
    c.get now' key = JVal.jnull := by
  unfold KVCache.get at h ⊢
  cases hl : alookup c.kv (c.getKey key) with
  | none => simp [kvGetJson, hl]
  | some e =>
      cases he : e.expiresAt with
      | none =>
          simp only [kvGetJson, hl, he] at h ⊢
          exact h
      | some t =>
          simp only [kvGetJson, hl, he] at h ⊢
          by_cases h2 : now' < t
          · have h1 : now < t := lt_of_le_of_lt hle h2
            rw [if_pos h1] at h
            rw [if_pos h2]
            exact h
          · rw [if_neg h2]

/-- A freshly `set` value is read back as long as its ttl (if a truthy one
was given) has not elapsed. -/
theorem get_set_self (c : KVCache) (now now' : Nat) (key : String) (v : JVal)
    (ttl : Option Nat) (hlive : ∀ t, ttl = some t → t ≠ 0 → now' < now + t) :
    (c.set now key v ttl).get now' key = v := by
  cases ttl with
  | none => simp [KVCache.set, KVCache.get, KVCache.getKey, kvGetJson, alookup_aput_self]
  | some t =>
      by_cases ht : t = 0
      · subst ht
        simp [KVCache.set, KVCache.get, KVCache.getKey, kvGetJson, alookup_aput_self]
      · have hn := hlive t rfl ht
        simp [KVCache.set, KVCache.get, KVCache.getKey, kvGetJson, alookup_aput_self, ht, hn]

/-- C2: for a key that is absent, a failing `computeFn` in `getOrSet`
propagates unchanged to the caller with the cache state untouched (nothing
is cached), the key is still absent at any later time, and a subsequent
`getOrSet` on the same key invokes `computeFn` again — no negative caching
of errors. -/
theorem getOrSet_error_propagates (c : KVCache) (now now' : Nat) (key : String)
    (e : String) (ttl ttl' : Option Nat) (fn' : Except String JVal)
    (hmiss : c.get now key = JVal.jnull) (hle : now ≤ now') :
    c.getOrSet now key (Except.error e) ttl = ⟨Except.error e, c, 1⟩ ∧
    c.get now' key = JVal.jnull ∧
    (c.getOrSet now' key fn' ttl').fnCalls = 1 := by
  have h' := get_null_mono c now now' key hmiss hle
  refine ⟨?_, h', ?_⟩
  · unfold KVCache.getOrSet
    simp [hmiss]
  · unfold KVCache.getOrSet
    simp only [h', ne_eq, not_true_eq_false, if_false]
    cases fn' <;> rfl

/-- Witness for C2 at a concrete input: empty cache, key `"k"`, a compute
failure `"boom"`. -/
theorem getOrSet_error_propagates_witness :
    (KVCache.mk [] "variants").getOrSet 0 "k" (Except.error "boom") (some 60) =
      ⟨Except.error "boom", KVCache.mk [] "variants", 1⟩ ∧
    (KVCache.mk [] "variants").get 1 "k" = JVal.jnull ∧
    ((KVCache.mk [] "variants").getOrSet 1 "k" (Except.ok (JVal.jstr "w")) (some 60)).fnCalls = 1 :=
  getOrSet_error_propagates (KVCache.mk [] "variants") 0 1 "k" "boom" (some 60) (some 60)
    (Except.ok (JVal.jstr "w")) (by decide) (by decide)

/-- C8: a single `getOrSet` invokes `computeFn` zero times on a hit
(returning the cached value unchanged), exactly once on a miss; on a
successful compute the result is stored under the given ttl before being
returned, and the stored value is read back by every subsequent `get` on
the key before its expiry. -/
theorem getOrSet_hit_miss_semantics (c : KVCache) (now : Nat) (key : String)
    (fn : Except String JVal) (ttl : Option Nat) :
    (c.get now key ≠ JVal.jnull →
        c.getOrSet now key fn ttl = ⟨Except.ok (c.get now key), c, 0⟩) ∧
    (c.get now key = JVal.jnull →
        (c.getOrSet now key fn ttl).fnCalls = 1 ∧
        ∀ v, fn = Except.ok v →
          c.getOrSet now key fn ttl = ⟨Except.ok v, c.set now key v ttl, 1⟩ ∧
          ∀ now', (∀ t, ttl = some t → t ≠ 0 → now' < now + t) →
            (c.getOrSet now key fn ttl).cache.get now' key = v) := by
  constructor
  · intro hhit
    unfold KVCache.getOrSet
    simp [hhit]
  · intro hmiss
    have hbody : c.getOrSet now key fn ttl =
        match fn with
        | Except.error e => ⟨Except.error e, c, 1⟩
        | Except.ok v => ⟨Except.ok v, c.set now key v ttl, 1⟩ := by
      unfold KVCache.getOrSet
      simp only [hmiss, ne_eq, not_true_eq_false, if_false]
    constructor
    · rw [hbody]; cases fn <;> rfl
    · intro v hv
      subst hv
      rw [hbody]
      exact ⟨rfl, fun now' hlive => get_set_self c now now' key v ttl hlive⟩

/-- Witness for C8 at a concrete input: a hit on a warm key invokes nothing;
a miss on `"k2"` computes once, stores under ttl 60 and is read back at a
later time inside the ttl. -/
theorem getOrSet_hit_miss_semantics_witness :
    ((KVCache.mk [("variants:k", ⟨JVal.jnum 7, none⟩)] "variants").getOrSet 5 "k"
        (Except.ok (JVal.jnum 9)) (some 60) =
      ⟨Except.ok (JVal.jnum 7),
       KVCache.mk [("variants:k", ⟨JVal.jnum 7, none⟩)] "variants", 0⟩) ∧
    ((KVCache.mk [] "variants").getOrSet 5 "k2" (Except.ok (JVal.jnum 9)) (some 60)).fnCalls = 1 ∧
    ((KVCache.mk [] "variants").getOrSet 5 "k2"
        (Except.ok (JVal.jnum 9)) (some 60)).cache.get 64 "k2" = JVal.jnum 9 := by
  have hwarm := (getOrSet_hit_miss_semantics
    (KVCache.mk [("variants:k", ⟨JVal.jnum 7, none⟩)] "variants") 5 "k"
    (Except.ok (JVal.jnum 9)) (some 60)).1 (by decide)
  have hcold := (getOrSet_hit_miss_semantics (KVCache.mk [] "variants") 5 "k2"
    (Except.ok (JVal.jnum 9)) (some 60)).2 (by decide)
  have hg : (KVCache.mk [("variants:k", ⟨JVal.jnum 7, none⟩)] "variants").get 5 "k"
      = JVal.jnum 7 := by decide
  refine ⟨?_, hcold.1, ((hcold.2 (JVal.jnum 9) rfl).2 64 ?_)⟩
  · rw [hwarm, hg]
  · intro t ht h0
    cases ht
    decide

/-- C4 counterexample: with `ttl = 0` the claim demands absence at every
time ≥ 0 seconds after the `set`, i.e. immediately; but `if (options.ttl)`
treats `0` as falsy, installs no expiry, and the very next `get` (0 seconds
later, and any time after) still returns the value. -/
theorem ttl_expiry_cex :
    ((KVCache.mk [] "variants").set 100 "k" (JVal.jstr "v") (some 0)).get 100 "k" =
      JVal.jstr "v" ∧
    ((KVCache.mk [] "variants").set 100 "k" (JVal.jstr "v") (some 0)).get 1000000 "k" =
      JVal.jstr "v" ∧
    JVal.jstr "v" ≠ JVal.jnull := by decide

/-- C4 (amended): for every **nonzero** ttl `t`, a `get` strictly less than
`t` seconds after the `set` returns the stored value and a `get` at or
after `t` seconds returns absent; and in general any read at or past an
entry's recorded expiry behaves as a miss. -/
theorem ttl_expiry (c : KVCache) (now d t : Nat) (key : String) (v : JVal)
    (ht : 0 < t) :
    (d < t → (c.set now key v (some t)).get (now + d) key = v) ∧
    (t ≤ d → (c.set now key v (some t)).get (now + d) key = JVal.jnull) ∧
    (∀ (st : KVStore) (e : KVEntry) (te now' : Nat),
        alookup st key = some e → e.expiresAt = some te → te ≤ now' →
        kvGetJson st now' key = JVal.jnull) := by
  refine ⟨?_, ?_, ?_⟩
  · intro hd
    refine get_set_self c now (now + d) key v (some t) ?_
    intro t' ht' h0
    cases ht'
    omega
  · intro hd
    have ht0 : t ≠ 0 := by omega
    have hlt : ¬ (now + d < now + t) := by omega
    simp [KVCache.set, KVCache.get, KVCache.getKey, kvGetJson, alookup_aput_self, ht0, hlt]
  · intro st e te now' hl he hle
    have hlt : ¬ (now' < te) := by omega
    simp [kvGetJson, hl, he, hlt]

/-- Witness for C4 (amended) at ttl 10: a hit 9 seconds after the set, a
miss 10 seconds after, and a miss on an entry read exactly at its expiry. -/
theorem ttl_expiry_witness :
    ((KVCache.mk [] "variants").set 100 "k" (JVal.jstr "v") (some 10)).get (100 + 9) "k" =
      JVal.jstr "v" ∧
    ((KVCache.mk [] "variants").set 100 "k" (JVal.jstr "v") (some 10)).get (100 + 10) "k" =
      JVal.jnull ∧
    kvGetJson [("x", ⟨JVal.jnum 1, some 50⟩)] 50 "x" = JVal.jnull := by
  refine ⟨(ttl_expiry (KVCache.mk [] "variants") 100 9 10 "k" (JVal.jstr "v")
            (by decide)).1 (by decide),
          (ttl_expiry (KVCache.mk [] "variants") 100 10 10 "k" (JVal.jstr "v")
            (by decide)).2.1 (by decide),
          (ttl_expiry (KVCache.mk [] "variants") 100 10 10 "x" (JVal.jstr "v")
            (by decide)).2.2 [("x", ⟨JVal.jnum 1, some 50⟩)] ⟨JVal.jnum 1, some 50⟩ 50 50
            (by decide) rfl (by decide)⟩

/-- C10: when `computeFn` succeeds with `null` on a missing key, `getOrSet`
returns that `null` and physically writes a JSON `null` into the store; yet
the key is never observable as a hit afterwards — every `get` reads `null`
(absent), `has` is false, and any later `getOrSet` invokes its `computeFn`
again. -/
theorem getOrSet_null_miss (c : KVCache) (now : Nat) (key : String) (ttl : Option Nat)
    (hmiss : c.get now key = JVal.jnull) :
    (c.getOrSet now key (Except.ok JVal.jnull) ttl).result = Except.ok JVal.jnull ∧
    (alookup (c.getOrSet now key (Except.ok JVal.jnull) ttl).cache.kv (c.getKey key)).map
        KVEntry.value = some JVal.jnull ∧
    (∀ now', (c.getOrSet now key (Except.ok JVal.jnull) ttl).cache.get now' key = JVal.jnull) ∧
    (∀ now', (c.getOrSet now key (Except.ok JVal.jnull) ttl).cache.hasKey now' key = false) ∧
    (∀ now' fn' ttl',
        ((c.getOrSet now key (Except.ok JVal.jnull) ttl).cache.getOrSet now' key fn' ttl').fnCalls
          = 1) := by
  have hbody : c.getOrSet now key (Except.ok JVal.jnull) ttl =
      ⟨Except.ok JVal.jnull, c.set now key JVal.jnull ttl, 1⟩ := by
    unfold KVCache.getOrSet
    simp [hmiss]
  rw [hbody]
  have hget : ∀ now', (c.set now key JVal.jnull ttl).get now' key = JVal.jnull := by
    intro now'
    cases ttl with
    | none => simp [KVCache.set, KVCache.get, KVCache.getKey, kvGetJson, alookup_aput_self]
    | some t =>
        by_cases ht : t = 0
        · subst ht
          simp [KVCache.set, KVCache.get, KVCache.getKey, kvGetJson, alookup_aput_self]
        · simp [KVCache.set, KVCache.get, KVCache.getKey, kvGetJson, alookup_aput_self, ht]
  refine ⟨rfl, ?_, hget, ?_, ?_⟩
  · cases ttl with
    | none => simp [KVCache.set, KVCache.getKey, alookup_aput_self]
    | some t => by_cases ht : t = 0 <;> simp [KVCache.set, KVCache.getKey, alookup_aput_self, ht]
  · intro now'
    simp [KVCache.hasKey, hget now']
  · intro now' fn' ttl'
    unfold KVCache.getOrSet
    simp only [hget now', ne_eq, not_true_eq_false, if_false]
    cases fn' <;> rfl

/-- Witness for C10 at a concrete input: empty cache, key `"k"`, ttl 60. -/
theorem getOrSet_null_miss_witness :
    ((KVCache.mk [] "variants").getOrSet 3 "k" (Except.ok JVal.jnull) (some 60)).result =
      Except.ok JVal.jnull ∧
    (alookup ((KVCache.mk [] "variants").getOrSet 3 "k"
        (Except.ok JVal.jnull) (some 60)).cache.kv
        ((KVCache.mk [] "variants").getKey "k")).map KVEntry.value = some JVal.jnull ∧
    ((KVCache.mk [] "variants").getOrSet 3 "k"
        (Except.ok JVal.jnull) (some 60)).cache.get 10 "k" = JVal.jnull ∧
    ((KVCache.mk [] "variants").getOrSet 3 "k"
        (Except.ok JVal.jnull) (some 60)).cache.hasKey 10 "k" = false ∧
    (((KVCache.mk [] "variants").getOrSet 3 "k" (Except.ok JVal.jnull) (some 60)).cache.getOrSet
        10 "k" (Except.ok (JVal.jnum 1)) (some 60)).fnCalls = 1 := by
  have h := getOrSet_null_miss (KVCache.mk [] "variants") 3 "k" (some 60) (by decide)
  exact ⟨h.1, h.2.1, h.2.2.1 10, h.2.2.2.1 10, h.2.2.2.2 10 (Except.ok (JVal.jnum 1)) (some 60)⟩

/-- C9: deleting an absent key from the ephemeral cache does not fail and
leaves the cache exactly as it was, and deleting the same key twice equals
deleting it once; likewise `deleteVariant` on an absent `hgvs` succeeds
with the shard state unchanged, and a double `deleteVariant` equals a
single one. -/
theorem delete_idempotent (c : KVCache) (s : RegState) (key h : String) :
    (alookup c.kv (c.getKey key) = none → c.del key = c) ∧
    (keysNodup c.kv → (c.del key).del key = c.del key) ∧
    (alookup s.variants h = none → alookup s.storage h = none →
        deleteVariant s h true = (Except.ok (), s)) ∧
    (keysNodup s.variants → keysNodup s.storage →
        deleteVariant (deleteVariant s h true).2 h true =
          (Except.ok (), (deleteVariant s h true).2)) := by
  refine ⟨?_, ?_, ?_, ?_⟩
  · intro habs
    simp [KVCache.del, adel_of_absent _ _ habs]
  · intro hwf
    have habs : alookup (adel c.kv (c.ns ++ ":" ++ key)) (c.ns ++ ":" ++ key) = none :=
      alookup_adel_self _ _ hwf
    simp only [KVCache.del, KVCache.getKey]
    rw [adel_of_absent _ _ habs]
  · intro hv hs
    simp [deleteVariant, adel_of_absent _ _ hv, adel_of_absent _ _ hs]
  · intro hwfv hwfs
    have hv : alookup (adel s.variants h) h = none := alookup_adel_self _ _ hwfv
    have hs : alookup (adel s.storage h) h = none := alookup_adel_self _ _ hwfs
    simp [deleteVariant, adel_of_absent _ _ hv, adel_of_absent _ _ hs]

/-- Witness for C9 at concrete inputs: an absent key in a one-entry cache
and an absent/present `hgvs` in a one-entry shard. -/
theorem delete_idempotent_witness :
    ((KVCache.mk [("variants:a", ⟨JVal.jnum 1, none⟩)] "variants").del "b" =
      KVCache.mk [("variants:a", ⟨JVal.jnum 1, none⟩)] "variants") ∧
    (((KVCache.mk [("variants:a", ⟨JVal.jnum 1, none⟩)] "variants").del "a").del "a" =
      (KVCache.mk [("variants:a", ⟨JVal.jnum 1, none⟩)] "variants").del "a") ∧
    (deleteVariant (RegState.mk [] []) "v" true = (Except.ok (), RegState.mk [] [])) ∧
    (deleteVariant (deleteVariant (RegState.mk [] []) "v" true).2 "v" true =
      (Except.ok (), (deleteVariant (RegState.mk [] []) "v" true).2)) := by
  have h1 := delete_idempotent (KVCache.mk [("variants:a", ⟨JVal.jnum 1, none⟩)] "variants")
    (RegState.mk [] []) "b" "v"
  have h2 := delete_idempotent (KVCache.mk [("variants:a", ⟨JVal.jnum 1, none⟩)] "variants")
    (RegState.mk [] []) "a" "v"
  exact ⟨h1.1 (by decide), h2.2.1 (by decide), h1.2.2.1 (by decide) (by decide),
         h1.2.2.2 (by decide) (by decide)⟩

/-- C1 counterexample: a shard holding `"v"` with `access_count = 2`; the
persistent put of the `getVariant` access bump fails, the operation fails —
but the in-memory index now carries `access_count = 3`, so the observable
state does not equal the state before the call. -/
theorem registry_rollback_cex :
    (getVariant
        (RegState.mk [("v", ⟨"v", "G", JVal.jnull, [], 5, 5, 2⟩)]
                     [("v", ⟨"v", "G", JVal.jnull, [], 5, 5, 2⟩)])
        "v" 9 false).1 = Except.error RegError.storageError ∧
    (getVariant
        (RegState.mk [("v", ⟨"v", "G", JVal.jnull, [], 5, 5, 2⟩)]
                     [("v", ⟨"v", "G", JVal.jnull, [], 5, 5, 2⟩)])
        "v" 9 false).2 ≠
      RegState.mk [("v", ⟨"v", "G", JVal.jnull, [], 5, 5, 2⟩)]
                  [("v", ⟨"v", "G", JVal.jnull, [], 5, 5, 2⟩)] ∧
    alookup (getVariant
        (RegState.mk [("v", ⟨"v", "G", JVal.jnull, [], 5, 5, 2⟩)]
                     [("v", ⟨"v", "G", JVal.jnull, [], 5, 5, 2⟩)])
        "v" 9 false).2.variants "v" = some ⟨"v", "G", JVal.jnull, [], 5, 9, 3⟩ := by
  decide

/-- C1 (amended): when the persistent write of a mutating registry
operation fails, the operation does fail (the storage error propagates
uncaught) and the persistent storage is unchanged, but the in-memory index
is **not** rolled back: after a failed `getVariant` bump it holds the
post-increment record (so the observable in-memory state differs from the
pre-call state), and after a failed `storeVariant` it holds the merged
entry. -/
theorem registry_put_failure_no_rollback (s : RegState) (h : String) (v : VariantEntry)
    (now : Nat) (d : VariantEntry) (hv : alookup s.variants h = some v) :
    ((getVariant s h now false).1 = Except.error RegError.storageError ∧
     (getVariant s h now false).2.storage = s.storage ∧
     alookup (getVariant s h now false).2.variants h =
       some { v with access_count := v.access_count + 1, updated_at := now } ∧
     alookup (getVariant s h now false).2.variants h ≠ alookup s.variants h) ∧
    ((storeVariant s d now false).1 = Except.error RegError.storageError ∧
     (storeVariant s d now false).2.storage = s.storage ∧
     alookup (storeVariant s d now false).2.variants d.hgvs =
       some { d with
         created_at := jsOr ((alookup s.variants d.hgvs).map VariantEntry.created_at) now,
         updated_at := now,
         access_count := jsOr ((alookup s.variants d.hgvs).map VariantEntry.access_count) 0 }) := by
  constructor
  · have hbody : getVariant s h now false =
        (Except.error RegError.storageError,
         { variants := aput s.variants h
             { v with access_count := v.access_count + 1, updated_at := now },
           storage := s.storage }) := by
      simp [getVariant, hv]
    rw [hbody]
    refine ⟨rfl, rfl, alookup_aput_self _ _ _, ?_⟩
    rw [alookup_aput_self, hv]
    intro hcontra
    have := (Option.some.injEq _ _).mp hcontra
    have hcount := congrArg VariantEntry.access_count this
    simp at hcount
  · have hbody : storeVariant s d now false =
        (Except.error RegError.storageError,
         { variants := aput s.variants d.hgvs
             { d with
               created_at := jsOr ((alookup s.variants d.hgvs).map VariantEntry.created_at) now,
               updated_at := now,
               access_count := jsOr ((alookup s.variants d.hgvs).map VariantEntry.access_count) 0 },
           storage := s.storage }) := rfl
    rw [hbody]
    exact ⟨rfl, rfl, alookup_aput_self _ _ _⟩

/-- Witness for C1 (amended) at the same concrete shard as the
counterexample. -/
theorem registry_put_failure_no_rollback_witness :
    ((getVariant
        (RegState.mk [("v", ⟨"v", "G", JVal.jnull, [], 5, 5, 2⟩)]
                     [("v", ⟨"v", "G", JVal.jnull, [], 5, 5, 2⟩)])
        "v" 9 false).1 = Except.error RegError.storageError ∧
     (getVariant
        (RegState.mk [("v", ⟨"v", "G", JVal.jnull, [], 5, 5, 2⟩)]
                     [("v", ⟨"v", "G", JVal.jnull, [], 5, 5, 2⟩)])
        "v" 9 false).2.storage = [("v", ⟨"v", "G", JVal.jnull, [], 5, 5, 2⟩)] ∧
     alookup (getVariant
        (RegState.mk [("v", ⟨"v", "G", JVal.jnull, [], 5, 5, 2⟩)]
                     [("v", ⟨"v", "G", JVal.jnull, [], 5, 5, 2⟩)])
        "v" 9 false).2.variants "v" = some ⟨"v", "G", JVal.jnull, [], 5, 9, 3⟩ ∧
     alookup (getVariant
        (RegState.mk [("v", ⟨"v", "G", JVal.jnull, [], 5, 5, 2⟩)]
                     [("v", ⟨"v", "G", JVal.jnull, [], 5, 5, 2⟩)])
        "v" 9 false).2.variants "v" ≠
       alookup [("v", (⟨"v", "G", JVal.jnull, [], 5, 5, 2⟩ : VariantEntry))] "v") ∧
    ((storeVariant (RegState.mk [] []) ⟨"w", "H", JVal.jnull, [], 0, 0, 0⟩ 7 false).1 =
        Except.error RegError.storageError ∧
     (storeVariant (RegState.mk [] []) ⟨"w", "H", JVal.jnull, [], 0, 0, 0⟩ 7 false).2.storage =
        [] ∧
     alookup (storeVariant (RegState.mk [] [])
        ⟨"w", "H", JVal.jnull, [], 0, 0, 0⟩ 7 false).2.variants "w" =
       some ⟨"w", "H", JVal.jnull, [], 7, 7, 0⟩) := by
  have h1 := (registry_put_failure_no_rollback
    (RegState.mk [("v", ⟨"v", "G", JVal.jnull, [], 5, 5, 2⟩)]
                 [("v", ⟨"v", "G", JVal.jnull, [], 5, 5, 2⟩)])
    "v" ⟨"v", "G", JVal.jnull, [], 5, 5, 2⟩ 9 ⟨"v", "G", JVal.jnull, [], 5, 5, 2⟩
    (by decide)).1
  have h2 := (registry_put_failure_no_rollback (RegState.mk [("x", ⟨"x", "G", JVal.jnull, [], 1, 1, 1⟩)]
      [("x", ⟨"x", "G", JVal.jnull, [], 1, 1, 1⟩)])
    "x" ⟨"x", "G", JVal.jnull, [], 1, 1, 1⟩ 7 ⟨"w", "H", JVal.jnull, [], 0, 0, 0⟩
    (by decide)).2
  exact ⟨⟨h1.1, h1.2.1, h1.2.2.1, h1.2.2.2⟩, by decide⟩

/-- JS `(some n) || 0` keeps `n`: when `n = 0` the default `0` is returned,
which coincides with `n`. -/
theorem jsOr_some_zero (n : Nat) : jsOr (some n) 0 = n := by
  by_cases h : n = 0 <;> simp [jsOr, h]

/-- JS `(some n) || d` keeps a truthy (nonzero) `n`. -/
theorem jsOr_some_ne (n d : Nat) (h : n ≠ 0) : jsOr (some n) d = n := by
  simp [jsOr, h]

/-- C5 counterexample: a first `storeVariant` at time 0 records
`created_at = 0`; because the upsert computes `existing?.created_at ||
Date.now()` and `0` is falsy in JavaScript, a second store of the same
`hgvs` at time 5 resets `created_at` to 5 instead of preserving the value
the first store assigned. -/
theorem created_at_preserved_cex :
    (alookup (storeVariant (RegState.mk [] [])
        ⟨"v", "G", JVal.jnull, [], 99, 99, 99⟩ 0 true).2.variants "v").map
      VariantEntry.created_at = some 0 ∧
    (alookup (storeVariant
        (storeVariant (RegState.mk [] []) ⟨"v", "G", JVal.jnull, [], 99, 99, 99⟩ 0 true).2
        ⟨"v", "G", JVal.jnull, [], 99, 99, 99⟩ 5 true).2.variants "v").map
      VariantEntry.created_at = some 5 ∧
    (0 : Nat) ≠ 5 := by decide

/-- C5 (amended): re-storing an existing `hgvs` preserves the recorded
`access_count` always, and preserves the recorded `created_at` whenever it
is nonzero (a `created_at` of exactly 0 — the epoch — is falsy under the
source's `existing?.created_at || Date.now()` and gets reset); the stored
record's `updated_at` is the store's time, and a read (`getVariant`) never
changes `created_at` either. -/
theorem storeVariant_preserves (s : RegState) (d : VariantEntry) (now : Nat)
    (v : VariantEntry) (hv : alookup s.variants d.hgvs = some v)
    (hc : v.created_at ≠ 0) :
    (storeVariant s d now true).1 = Except.ok
      { d with created_at := v.created_at, updated_at := now,
               access_count := v.access_count } ∧
    alookup (storeVariant s d now true).2.variants d.hgvs =
      some { d with created_at := v.created_at, updated_at := now,
                    access_count := v.access_count } ∧
    alookup (storeVariant s d now true).2.storage d.hgvs =
      some { d with created_at := v.created_at, updated_at := now,
                    access_count := v.access_count } ∧
    (∀ (now' : Nat) (pk : Bool),
        (alookup (getVariant s d.hgvs now' pk).2.variants d.hgvs).map
          VariantEntry.created_at = some v.created_at) := by
  have h1 : jsOr ((alookup s.variants d.hgvs).map VariantEntry.created_at) now
      = v.created_at := by
    rw [hv]
    exact jsOr_some_ne _ _ hc
  have h2 : jsOr ((alookup s.variants d.hgvs).map VariantEntry.access_count) 0
      = v.access_count := by
    rw [hv]
    exact jsOr_some_zero _
  have hbody : storeVariant s d now true =
      (Except.ok
        { d with
          created_at := jsOr ((alookup s.variants d.hgvs).map VariantEntry.created_at) now,
          updated_at := now,
          access_count := jsOr ((alookup s.variants d.hgvs).map VariantEntry.access_count) 0 },
       { variants := aput s.variants d.hgvs
           { d with
             created_at := jsOr ((alookup s.variants d.hgvs).map VariantEntry.created_at) now,
             updated_at := now,
             access_count := jsOr ((alookup s.variants d.hgvs).map VariantEntry.access_count) 0 },
         storage := aput s.storage d.hgvs
           { d with
             created_at := jsOr ((alookup s.variants d.hgvs).map VariantEntry.created_at) now,
             updated_at := now,
             access_count := jsOr ((alookup s.variants d.hgvs).map VariantEntry.access_count) 0 } }) :=
    rfl
  rw [hbody, h1, h2]
  refine ⟨rfl, alookup_aput_self _ _ _, alookup_aput_self _ _ _, ?_⟩
  intro now' pk
  have hmem : (getVariant s d.hgvs now' pk).2.variants =
      aput s.variants d.hgvs
        { v with access_count := v.access_count + 1, updated_at := now' } := by
    cases pk <;> simp [getVariant, hv]
  rw [hmem, alookup_aput_self]
  rfl

/-- Witness for C5 (amended): a shard whose entry has `created_at = 5`
(nonzero), re-stored at time 9. -/
theorem storeVariant_preserves_witness :
    (storeVariant
        (RegState.mk [("v", ⟨"v", "G", JVal.jnull, [], 5, 5, 2⟩)]
                     [("v", ⟨"v", "G", JVal.jnull, [], 5, 5, 2⟩)])
        ⟨"v", "G", JVal.jbool true, ["X"], 99, 99, 99⟩ 9 true).1 =
      Except.ok ⟨"v", "G", JVal.jbool true, ["X"], 5, 9, 2⟩ ∧
    alookup (storeVariant
        (RegState.mk [("v", ⟨"v", "G", JVal.jnull, [], 5, 5, 2⟩)]
                     [("v", ⟨"v", "G", JVal.jnull, [], 5, 5, 2⟩)])
        ⟨"v", "G", JVal.jbool true, ["X"], 99, 99, 99⟩ 9 true).2.variants "v" =
      some ⟨"v", "G", JVal.jbool true, ["X"], 5, 9, 2⟩ ∧
    (alookup (getVariant
        (RegState.mk [("v", ⟨"v", "G", JVal.jnull, [], 5, 5, 2⟩)]
                     [("v", ⟨"v", "G", JVal.jnull, [], 5, 5, 2⟩)])
        "v" 11 true).2.variants "v").map VariantEntry.created_at = some 5 := by
  have h := storeVariant_preserves
    (RegState.mk [("v", ⟨"v", "G", JVal.jnull, [], 5, 5, 2⟩)]
                 [("v", ⟨"v", "G", JVal.jnull, [], 5, 5, 2⟩)])
    ⟨"v", "G", JVal.jbool true, ["X"], 99, 99, 99⟩ 9
    ⟨"v", "G", JVal.jnull, [], 5, 5, 2⟩ (by decide) (by decide)
  exact ⟨h.1, h.2.1, h.2.2.2 11 true⟩

/-- C6 counterexample: a fresh shard over one persisted record serves a
delete that empties the index; hydration runs on that first request and
runs **again** on the very next request — it is not once-per-lifetime. -/
theorem hydration_rerun_cex :
    (serveRequest (RegState.mk [] [("v", ⟨"v", "G", JVal.jnull, [], 5, 5, 2⟩)])
        (RegOp.deleteOp "v") 3 true).2.2 = true ∧
    (serveRequest (serveRequest (RegState.mk [] [("v", ⟨"v", "G", JVal.jnull, [], 5, 5, 2⟩)])
        (RegOp.deleteOp "v") 3 true).2.1 RegOp.statsOp 4 true).2.2 = true := by
  decide

/-- C6 (amended): the hydration load runs at the start of exactly those
requests that find the in-memory index empty (so it does complete before
the request's operation is served, and is skipped while the index is
nonempty) — but it is re-run by any later request on an emptied index
rather than once per shard lifetime. -/
theorem hydration_guard (s : RegState) (op : RegOp) (now : Nat) (pk : Bool) :
    (serveRequest s op now pk).2.2 = s.variants.isEmpty := by
  unfold serveRequest
  rcases hh : hydrate s with ⟨s₁, ran⟩
  have hran : ran = s.variants.isEmpty := by
    unfold hydrate at hh
    by_cases he : s.variants.isEmpty <;> simp [he] at hh <;> simp [he, hh.2]
  cases op with
  | getOp h =>
      rcases hg : getVariant s₁ h now pk with ⟨r, s₂⟩
      cases r <;> simp [hg, hran]
  | storeOp d =>
      rcases hg : storeVariant s₁ d now pk with ⟨r, s₂⟩
      cases r <;> simp [hg, hran]
  | deleteOp h =>
      rcases hg : deleteVariant s₁ h pk with ⟨r, s₂⟩
      cases r <;> simp [hg, hran]
  | statsOp => simp [getStats, hran]

/-- A sequence of successful reads adds exactly its length to the entry's
`access_count`. -/
theorem getN_access_count (h : String) (ts : List Nat) :
    ∀ (s : RegState) (v : VariantEntry), alookup s.variants h = some v →
    ∃ v', alookup (getN s h ts).variants h = some v' ∧
      v'.access_count = v.access_count + ts.length := by
  induction ts with
  | nil =>
      intro s v hv
      exact ⟨v, by simpa [getN] using hv, by simp⟩
  | cons t ts ih =>
      intro s v hv
      have hstep : (getVariant s h t true).2.variants =
          aput s.variants h { v with access_count := v.access_count + 1, updated_at := t } := by
        simp [getVariant, hv]
      have hv1 : alookup (getVariant s h t true).2.variants h =
          some { v with access_count := v.access_count + 1, updated_at := t } := by
        rw [hstep, alookup_aput_self]
      obtain ⟨v', hv', hc⟩ := ih (getVariant s h t true).2 _ hv1
      refine ⟨v', by simpa [getN] using hv', ?_⟩
      have hc' : v'.access_count = v.access_count + 1 + ts.length := hc
      simp only [List.length_cons]
      omega

/-- A shard with a nonempty index skips hydration, so a `getVariant`
request leaves the post-operation state of `getVariant` itself. -/
theorem serveRequest_getOp_state (s : RegState) (h' : String) (now : Nat)
    (pk : Bool) (hne : s.variants.isEmpty = false) :
    (serveRequest s (RegOp.getOp h') now pk).2.1 = (getVariant s h' now pk).2 := by
  have hhyd : hydrate s = (s, false) := by simp [hydrate, hne]
  unfold serveRequest
  rw [hhyd]
  rcases hg : getVariant s h' now pk with ⟨r, s₂⟩
  cases r <;> simp [hg]

/-- Hydration-skipping reduction for a `storeVariant` request. -/
theorem serveRequest_storeOp_state (s : RegState) (d : VariantEntry) (now : Nat)
    (pk : Bool) (hne : s.variants.isEmpty = false) :
    (serveRequest s (RegOp.storeOp d) now pk).2.1 = (storeVariant s d now pk).2 := by
  have hhyd : hydrate s = (s, false) := by simp [hydrate, hne]
  unfold serveRequest
  rw [hhyd]
  rcases hg : storeVariant s d now pk with ⟨r, s₂⟩
  cases r <;> simp [hg]

/-- Hydration-skipping reduction for a `deleteVariant` request. -/
theorem serveRequest_deleteOp_state (s : RegState) (h' : String)
    (now : Nat) (pk : Bool) (hne : s.variants.isEmpty = false) :
    (serveRequest s (RegOp.deleteOp h') now pk).2.1 = (deleteVariant s h' pk).2 := by
  have hhyd : hydrate s = (s, false) := by simp [hydrate, hne]
  unfold serveRequest
  rw [hhyd]
  rcases hg : deleteVariant s h' pk with ⟨r, s₂⟩
  cases r <;> simp [hg]

/-- Hydration-skipping reduction for a `getStats` request. -/
theorem serveRequest_statsOp_state (s : RegState) (now : Nat) (pk : Bool)
    (hne : s.variants.isEmpty = false) :
    (serveRequest s RegOp.statsOp now pk).2.1 = s := by
  have hhyd : hydrate s = (s, false) := by simp [hydrate, hne]
  unfold serveRequest
  rw [hhyd]

/-- C3: a successful `getVariant` on an existing entry returns the
post-increment record with `updated_at` set to the call time and persists
it; N successful reads add exactly N to `access_count`; a `getVariant` on
an absent `hgvs` returns NotFound leaving index and storage untouched; and
no registry request ever decreases the `access_count` of an entry that
stays present. -/
theorem access_count_monotone :
    (∀ (s : RegState) (h : String) (v : VariantEntry) (now : Nat),
        alookup s.variants h = some v →
        getVariant s h now true =
          (Except.ok { v with access_count := v.access_count + 1, updated_at := now },
           { variants := aput s.variants h
               { v with access_count := v.access_count + 1, updated_at := now },
             storage := aput s.storage h
               { v with access_count := v.access_count + 1, updated_at := now } })) ∧
    (∀ (s : RegState) (h : String) (v : VariantEntry) (ts : List Nat),
        alookup s.variants h = some v →
        ∃ v', alookup (getN s h ts).variants h = some v' ∧
          v'.access_count = v.access_count + ts.length) ∧
    (∀ (s : RegState) (h : String) (now : Nat) (pk : Bool),
        alookup s.variants h = none →
        getVariant s h now pk = (Except.error RegError.notFound, s)) ∧
    (∀ (s : RegState) (op : RegOp) (now : Nat) (pk : Bool) (h : String)
        (v v' : VariantEntry), keysNodup s.variants →
        alookup s.variants h = some v →
        alookup (serveRequest s op now pk).2.1.variants h = some v' →
        v.access_count ≤ v'.access_count) := by
  refine ⟨?_, fun s h v ts hv => getN_access_count h ts s v hv, ?_, ?_⟩
  · intro s h v now hv
    simp [getVariant, hv]
  · intro s h now pk hv
    simp [getVariant, hv]
  · intro s op now pk h v v' hwf hv hv'
    have hne : s.variants.isEmpty = false := by
      cases hvar : s.variants with
      | nil => rw [hvar] at hv; simp [alookup] at hv
      | cons a l => simp [hvar]
    cases op with
    | getOp h' =>
        rw [serveRequest_getOp_state s h' now pk hne] at hv'
        cases hl : alookup s.variants h' with
        | none =>
            simp only [getVariant, hl] at hv'
            rw [hv] at hv'
            have hvv := (Option.some.injEq _ _).mp hv'
            subst hvv
            exact le_refl _
        | some w =>
            have hmem : (getVariant s h' now pk).2.variants =
                aput s.variants h'
                  { w with access_count := w.access_count + 1, updated_at := now } := by
              cases pk <;> simp [getVariant, hl]
            rw [hmem] at hv'
            by_cases hkey : h = h'
            · subst hkey
              rw [alookup_aput_self] at hv'
              rw [hv] at hl
              have hvw := (Option.some.injEq _ _).mp hl
              subst hvw
              have hvv := (Option.some.injEq _ _).mp hv'
              subst hvv
              simp
            · rw [alookup_aput_ne _ _ _ _ hkey] at hv'
              rw [hv] at hv'
              have hvv := (Option.some.injEq _ _).mp hv'
              subst hvv
              exact le_refl _
    | storeOp d =>
        rw [serveRequest_storeOp_state s d now pk hne] at hv'
        have hmem : (storeVariant s d now pk).2.variants =
            aput s.variants d.hgvs
              { d with
                created_at := jsOr ((alookup s.variants d.hgvs).map VariantEntry.created_at) now,
                updated_at := now,
                access_count := jsOr ((alookup s.variants d.hgvs).map VariantEntry.access_count) 0 } := by
          cases pk <;> simp [storeVariant]
        rw [hmem] at hv'
        by_cases hkey : h = d.hgvs
        · subst hkey
          rw [alookup_aput_self] at hv'
          rw [hv] at hv'
          have hvv := (Option.some.injEq _ _).mp hv'
          subst hvv
          simp [jsOr_some_zero]
        · rw [alookup_aput_ne _ _ _ _ hkey] at hv'
          rw [hv] at hv'
          have hvv := (Option.some.injEq _ _).mp hv'
          subst hvv
          exact le_refl _
    | deleteOp h' =>
        rw [serveRequest_deleteOp_state s h' now pk hne] at hv'
        have hmem : (deleteVariant s h' pk).2.variants = adel s.variants h' := by
          cases pk <;> simp [deleteVariant]
        rw [hmem] at hv'
        by_cases hkey : h = h'
        · subst hkey
          rw [alookup_adel_self _ _ hwf] at hv'
          cases hv'
        · rw [alookup_adel_ne _ _ _ hkey] at hv'
          rw [hv] at hv'
          have hvv := (Option.some.injEq _ _).mp hv'
          subst hvv
          exact le_refl _
    | statsOp =>
        rw [serveRequest_statsOp_state s now pk hne] at hv'
        rw [hv] at hv'
        have hvv := (Option.some.injEq _ _).mp hv'
        subst hvv
        exact le_refl _

/-- Witness for C3: a one-entry shard with `access_count = 2`; a read at
time 7 returns and persists count 3, two reads (times 7, 8) leave count
2 + 2, a read of an absent `hgvs` is a pure NotFound, and a served read
request never lowered the count. -/
theorem access_count_monotone_witness :
    getVariant
        (RegState.mk [("v", ⟨"v", "G", JVal.jnull, [], 5, 5, 2⟩)]
                     [("v", ⟨"v", "G", JVal.jnull, [], 5, 5, 2⟩)]) "v" 7 true =
      (Except.ok ⟨"v", "G", JVal.jnull, [], 5, 7, 3⟩,
       RegState.mk [("v", ⟨"v", "G", JVal.jnull, [], 5, 7, 3⟩)]
                   [("v", ⟨"v", "G", JVal.jnull, [], 5, 7, 3⟩)]) ∧
    (alookup (getN
        (RegState.mk [("v", ⟨"v", "G", JVal.jnull, [], 5, 5, 2⟩)]
                     [("v", ⟨"v", "G", JVal.jnull, [], 5, 5, 2⟩)]) "v" [7, 8]).variants
      "v").map VariantEntry.access_count = some (2 + 2) ∧
    getVariant
        (RegState.mk [("v", ⟨"v", "G", JVal.jnull, [], 5, 5, 2⟩)]
                     [("v", ⟨"v", "G", JVal.jnull, [], 5, 5, 2⟩)]) "w" 9 true =
      (Except.error RegError.notFound,
       RegState.mk [("v", ⟨"v", "G", JVal.jnull, [], 5, 5, 2⟩)]
                   [("v", ⟨"v", "G", JVal.jnull, [], 5, 5, 2⟩)]) ∧
    (⟨"v", "G", JVal.jnull, [], 5, 5, 2⟩ : VariantEntry).access_count ≤
      (⟨"v", "G", JVal.jnull, [], 5, 7, 3⟩ : VariantEntry).access_count := by
  refine ⟨?_, ?_, ?_, ?_⟩
  · exact access_count_monotone.1
      (RegState.mk [("v", ⟨"v", "G", JVal.jnull, [], 5, 5, 2⟩)]
                   [("v", ⟨"v", "G", JVal.jnull, [], 5, 5, 2⟩)]) "v"
      ⟨"v", "G", JVal.jnull, [], 5, 5, 2⟩ 7 (by decide)
  · obtain ⟨v', hl, hc⟩ := access_count_monotone.2.1
      (RegState.mk [("v", ⟨"v", "G", JVal.jnull, [], 5, 5, 2⟩)]
                   [("v", ⟨"v", "G", JVal.jnull, [], 5, 5, 2⟩)]) "v"
      ⟨"v", "G", JVal.jnull, [], 5, 5, 2⟩ [7, 8] (by decide)
    have hc4 : v'.access_count = 2 + 2 := hc
    rw [hl]
    simp [hc4]
  · exact access_count_monotone.2.2.1
      (RegState.mk [("v", ⟨"v", "G", JVal.jnull, [], 5, 5, 2⟩)]
                   [("v", ⟨"v", "G", JVal.jnull, [], 5, 5, 2⟩)]) "w" 9 true (by decide)
  · exact access_count_monotone.2.2.2
      (RegState.mk [("v", ⟨"v", "G", JVal.jnull, [], 5, 5, 2⟩)]
                   [("v", ⟨"v", "G", JVal.jnull, [], 5, 5, 2⟩)])
      (RegOp.getOp "v") 7 true "v"
      ⟨"v", "G", JVal.jnull, [], 5, 5, 2⟩ ⟨"v", "G", JVal.jnull, [], 5, 7, 3⟩
      (by decide) (by decide) (by decide)

/-- A rejected promise anywhere in the list rejects the whole
`Promise.all`. -/
theorem promiseAll_error {ε α : Type} (rs : List (Except ε α)) (e : ε)
    (h : Except.error e ∈ rs) : ∃ e', promiseAll rs = Except.error e' := by
  induction rs with
  | nil => cases h
  | cons r rest ih =>
      cases r with
      | error e0 => exact ⟨e0, rfl⟩
      | ok a =>
          rcases List.mem_cons.mp h with h0 | hmem
          · simp at h0
          · obtain ⟨e', he'⟩ := ih hmem
            exact ⟨e', by simp [promiseAll, he', Except.map]⟩

/-- An all-fulfilled list resolves `Promise.all` with the list of values. -/
theorem promiseAll_ok {ε α : Type} (rs : List (Except ε α))
    (h : ∀ r ∈ rs, ∃ a, r = Except.ok a) : ∃ l, promiseAll rs = Except.ok l := by
  induction rs with
  | nil => exact ⟨[], rfl⟩
  | cons r rest ih =>
      obtain ⟨a, rfl⟩ := h r (List.mem_cons_self r rest)
      obtain ⟨l, hl⟩ := ih (fun r hr => h r (List.mem_cons_of_mem _ hr))
      exact ⟨a :: l, by simp [promiseAll, hl, Except.map]⟩

/-- The aggregate the diagnosis handler awaits is the `Promise.all` of the
per-item outcomes. -/
theorem diagnosisStep2_fst (c : KVCache) (now : Nat) (ttl : Option Nat)
    (items : List (String × Except String JVal)) :
    (diagnosisStep2 c now ttl items).1 = promiseAll (runBatch c now ttl items).1 := by
  unfold diagnosisStep2
  rcases runBatch c now ttl items with ⟨rs, c'⟩
  rfl

/-- C7 counterexample: a two-variant batch in which the first sub-query
succeeds and the second fails; the per-item outcomes show the sibling
success, yet the aggregate the handler awaits is a single rejection — the
successful sub-query's result is not produced in the response. -/
theorem batch_abort_cex :
    (runBatch (KVCache.mk [] "variants") 0 (some 60)
        [("v1", Except.ok (JVal.jstr "a")), ("v2", Except.error "boom")]).1 =
      [Except.ok (JVal.jstr "a"), Except.error "boom"] ∧
    (diagnosisStep2 (KVCache.mk [] "variants") 0 (some 60)
        [("v1", Except.ok (JVal.jstr "a")), ("v2", Except.error "boom")]).1 =
      Except.error "boom" := by decide

/-- C7 (amended): the batch is all-or-nothing, not isolated per item — any
failing sub-query rejects the whole awaited `Promise.all` (both in the
diagnosis handler's fan-out and in `batchExecute`, whose per-task retry
wrapper rethrows), and only a batch whose sub-queries all succeed yields
the aggregate list of results. -/
theorem batch_all_or_nothing :
    (∀ (c : KVCache) (now : Nat) (ttl : Option Nat)
        (items : List (String × Except String JVal)) (e : String),
        Except.error e ∈ (runBatch c now ttl items).1 →
        ∃ e', (diagnosisStep2 c now ttl items).1 = Except.error e') ∧
    (∀ (c : KVCache) (now : Nat) (ttl : Option Nat)
        (items : List (String × Except String JVal)),
        (∀ r ∈ (runBatch c now ttl items).1, ∃ a, r = Except.ok a) →
        ∃ l, (diagnosisStep2 c now ttl items).1 = Except.ok l) ∧
    (∀ (tasks : List (Nat → Except String JVal)) (retries : Nat) (e : String),
        Except.error e ∈ tasks.map (fun t => executeWithRetry t retries 0) →
        ∃ e', batchExecute tasks retries = Except.error e') := by
  refine ⟨?_, ?_, ?_⟩
  · intro c now ttl items e hmem
    rw [diagnosisStep2_fst]
    exact promiseAll_error _ e hmem
  · intro c now ttl items hall
    rw [diagnosisStep2_fst]
    exact promiseAll_ok _ hall
  · intro tasks retries e hmem
    exact promiseAll_error _ e hmem

/-- Witness for C7 (amended) at concrete batches: a mixed batch rejects,
an all-success batch resolves, and a `batchExecute` with an always-failing
task rejects. -/
theorem batch_all_or_nothing_witness :
    (diagnosisStep2 (KVCache.mk [] "variants") 0 (some 60)
        [("v1", Except.ok (JVal.jstr "a")), ("v2", Except.error "boom")]).1.toOption =
      none ∧
    ((diagnosisStep2 (KVCache.mk [] "variants") 0 (some 60)
        [("v1", Except.ok (JVal.jstr "a")), ("v2", Except.ok (JVal.jstr "b"))]).1.toOption).isSome =
      true ∧
    (batchExecute [fun _ => Except.error "x"] 0).toOption = none := by
  refine ⟨?_, ?_, ?_⟩
  · obtain ⟨e', he'⟩ := batch_all_or_nothing.1 (KVCache.mk [] "variants") 0 (some 60)
      [("v1", Except.ok (JVal.jstr "a")), ("v2", Except.error "boom")] "boom" (by decide)
    rw [he']
    rfl
  · obtain ⟨l, hl⟩ := batch_all_or_nothing.2.1 (KVCache.mk [] "variants") 0 (some 60)
      [("v1", Except.ok (JVal.jstr "a")), ("v2", Except.ok (JVal.jstr "b"))] (by
        intro r hr
        have hrb : (runBatch (KVCache.mk [] "variants") 0 (some 60)
            [("v1", Except.ok (JVal.jstr "a")), ("v2", Except.ok (JVal.jstr "b"))]).1 =
            [Except.ok (JVal.jstr "a"), Except.ok (JVal.jstr "b")] := by decide
        rw [hrb] at hr
        simp only [List.mem_cons, List.not_mem_nil, or_false] at hr
        rcases hr with rfl | rfl
        · exact ⟨JVal.jstr "a", rfl⟩
        · exact ⟨JVal.jstr "b", rfl⟩)
    rw [hl]
    rfl
  · obtain ⟨e', he'⟩ := batch_all_or_nothing.2.2 [fun _ => Except.error "x"] 0 "x"
      (by simp [executeWithRetry])
    rw [he']
    rfl
